import Mathlib

/-!
Verification of the National Rail CIF-to-GTFS converter.

This development shallowly embeds the converter's core (`src/main.rs`):
the station resolver `parse_msn`, the timetable state machine `parse_mca`
with its consolidation maps, the time formatter `format_time`, and the
metro sub-network classifier `get_lo_line_details`.

Strings are modelled as lists of characters (the inputs are fixed-width
ASCII records, so Rust's byte slicing coincides with character slicing);
Rust `str::get(a..b).unwrap_or(d)` becomes `sget`, `str::trim` becomes
`trim`, and the `HashMap`s are modelled as association lists (the source
only ever inserts a key that is absent into the two deduplication maps,
so insertion order is well defined).  The external coordinate projection
(`convert_osgb36_to_ll`) and the floating-point number reader are passed
in as parameters, mirroring their role as external library calls.

The `MCAState.log` field is specification-only instrumentation: it
records one entry per finalized trip (whether emitted or suppressed) and
touches no other field; every other field of `MCAState` is written
exactly as the source writes its corresponding variable or output file.
-/

/-! ## String primitives -/

abbrev Str := List Char

def str (s : String) : Str := s.toList

/-- Rust `str::trim` from the left (whitespace only). -/
def trimL : Str → Str
  | [] => []
  | c :: r => if c.isWhitespace then trimL r else c :: r

/-- Rust `str::trim`: drop whitespace on both ends. -/
def trim (l : Str) : Str := (trimL (trimL l).reverse).reverse

/-- Rust `line.get(a..b).unwrap_or(d)`: the slice `a..b` when in bounds,
otherwise the default `d`. -/
def sget (l : Str) (a b : Nat) (d : Str) : Str :=
  if a ≤ b ∧ b ≤ l.length then (l.drop a).take (b - a) else d

/-- Decimal digits of `n`, empty for `0` (helper for `natDec`). -/
def natDecGo (n : Nat) : Str :=
  if h : n = 0 then []
  else natDecGo (n / 10) ++ [Char.ofNat (48 + n % 10)]
termination_by n
decreasing_by exact Nat.div_lt_self (Nat.pos_of_ne_zero h) (by omega)

/-- Rust's `Display` for unsigned integers: standard decimal form. -/
def natDec (n : Nat) : Str := if n = 0 then str "0" else natDecGo n

/-- Value of a decimal digit string (left inverse used to show `natDec`
is injective). -/
def decVal (l : Str) : Nat := l.foldl (fun a c => a * 10 + (c.toNat - 48)) 0

/-- Rust `str::contains` helper: `hasPre p l` means `p` is an initial
segment of `l`. -/
def hasPre : Str → Str → Bool
  | [], _ => true
  | _ :: _, [] => false
  | c :: cs, d :: ds => c == d && hasPre cs ds

/-- Rust `str::contains`: `needle` occurs as a contiguous substring of
`hay`. -/
def strContains (hay needle : Str) : Bool :=
  match hay with
  | [] => hasPre needle []
  | _ :: t => hasPre needle hay || strContains t needle

/-- Rust `str::to_uppercase`, character-wise (ASCII inputs). -/
def strUpper (l : Str) : Str := l.map Char.toUpper

/-! ## Association lists (model of the source's HashMaps) -/

def alFind {α β : Type} [DecidableEq α] : List (α × β) → α → Option β
  | [], _ => none
  | (k, v) :: r, x => if k = x then some v else alFind r x

def alSet {α β : Type} [DecidableEq α] : List (α × β) → α → β → List (α × β)
  | [], x, y => [(x, y)]
  | (k, v) :: r, x, y => if k = x then (x, y) :: r else (k, v) :: alSet r x y

/-! ## Data model (structs of the source) -/

structure ParsedStation where
  tiploc : Str
  name : Str
  lat : Rat
  lon : Rat
deriving DecidableEq, Repr

structure Agency where
  agency_id : Str
  agency_name : Str
  agency_url : Str
  agency_timezone : Str
deriving DecidableEq, Repr

structure Route where
  route_id : Str
  agency_id : Str
  route_short_name : Str
  route_long_name : Str
  route_type : Nat
  route_color : Str
  route_text_color : Str
deriving DecidableEq, Repr

structure Trip where
  route_id : Str
  service_id : Str
  trip_id : Str
  trip_headsign : Str
  trip_short_name : Str
deriving DecidableEq, Repr

structure StopTime where
  trip_id : Str
  arrival_time : Str
  departure_time : Str
  stop_id : Str
  stop_sequence : Nat
deriving DecidableEq, Repr

structure Calendar where
  service_id : Str
  monday : Nat
  tuesday : Nat
  wednesday : Nat
  thursday : Nat
  friday : Nat
  saturday : Nat
  sunday : Nat
  start_date : Str
  end_date : Str
deriving DecidableEq, Repr

structure Association where
  base_uid : Str
  assoc_uid : Str
  start_date : Str
  end_date : Str
  days_run : Str
  category : Str
  location : Str
  assoc_type : Str
  stp_indicator : Str
deriving DecidableEq, Repr

structure TripState where
  uid : Str
  date_start : Str
  date_end : Str
  days_run : Str
  stp_ind : Str
  atoc_code : Str
  train_identity : Str
  origin_name : Str
  dest_name : Str
  stops : List StopTime
deriving DecidableEq, Repr

structure TripSignature where
  route_id : Str
  stop_pattern : List (Str × Str × Str)
  headsign : Str
  train_identity : Str
deriving DecidableEq, Repr

structure TripServiceSignature where
  trip_sig : TripSignature
  service_id : Str
deriving DecidableEq, Repr

structure CalendarSignature where
  monday : Nat
  tuesday : Nat
  wednesday : Nat
  thursday : Nat
  friday : Nat
  saturday : Nat
  sunday : Nat
  start_date : Str
  end_date : Str
deriving DecidableEq, Repr

/-- Specification-only record of one trip finalization (one resolved
terminal-location record): its composite signature, the business UID and
the fields the trip identifier is built from, whether a trips/stop_times
row set was emitted (`false` = suppressed duplicate), the assigned trip
identifier (`[]` when suppressed) and the accumulated stop events (with
the placeholder trip identifier, before substitution). -/
structure FinalEvent where
  sig : TripServiceSignature
  uid : Str
  date_start : Str
  stp_ind : Str
  emitted : Bool
  trip_id : Str
  stops : List StopTime
deriving DecidableEq, Repr

/-! ## format_time -/

/-- `format_time` of the source: keep the numeric characters; with at
least four of them the first four become `HH:MM:00`, otherwise midnight. -/
def format_time (raw : Str) : Str :=
  let clean := raw.filter (fun c => c.isDigit)
  if 4 ≤ clean.length then
    clean.take 2 ++ str ":" ++ (clean.drop 2).take 2 ++ str ":00"
  else str "00:00:00"

/-! ## get_lo_line_details -/

/-- The resolved display names of a stop list (the source collects them
into a `HashSet`; only membership is ever used, so a list suffices). -/
def loNames (stops : List StopTime) (tm : List (Str × ParsedStation)) : List Str :=
  stops.filterMap (fun st => (alFind tm st.stop_id).map (fun p => p.name))

/-- The classifier's case-insensitive containment test over the resolved
names. -/
def loHas (names : List Str) (s : Str) : Bool :=
  names.any (fun n => strContains (strUpper n) (strUpper s))

/-- `get_lo_line_details` of the source: the hand-ordered decision list
over the distinct station names of the trip, first match wins. -/
def get_lo_line_details (stops : List StopTime) (tm : List (Str × ParsedStation)) :
    Str × Str × Str :=
  let names := loNames stops tm
  if loHas names (str "GOSPEL OAK") && loHas names (str "BARKING") then
    (str "Suffragette Line", str "LO-SUFFRAGETTE", str "008163")
  else if loHas names (str "ROMFORD") && loHas names (str "UPMINSTER") then
    (str "Liberty Line", str "LO-LIBERTY", str "676767")
  else if loHas names (str "LIVERPOOL STREET") &&
      (loHas names (str "CHESHUNT") || loHas names (str "ENFIELD TOWN") ||
        loHas names (str "CHINGFORD")) then
    (str "Weaver Line", str "LO-WEAVER", str "a90068")
  else if loHas names (str "EUSTON") && loHas names (str "WATFORD JUNCTION") then
    (str "Lioness Line", str "LO-LIONESS", str "f1b41c")
  else if loHas names (str "SHOREDITCH HIGH STREET") then
    (str "Windrush Line", str "LO-WINDRUSH", str "dc2517")
  else if loHas names (str "STRATFORD") ||
      (loHas names (str "RICHMOND") && loHas names (str "WILLESDEN JUNCTION")) ||
      loHas names (str "CAMDEN ROAD") || loHas names (str "HACKNEY CENTRAL") then
    (str "Mildmay Line", str "LO-MILDMAY", str "437ec1")
  else
    (str "London Overground", str "LO-GENERIC", str "E66A1F")

/-! ## parse_msn (Master Station Names resolver)

The OSGB36 projection (`convert_osgb36_to_ll`) and the floating-point
reader (`str::parse::<f64>`) are external library calls; they are
parameters `cv` and `pn` of the embedding.  Coordinates are rationals. -/

def msnStartsA (line : Str) : Bool :=
  match line with
  | [] => false
  | c :: _ => c == 'A'

def msnName (line : Str) : Str := trim (sget line 5 31 [])

def msnTiploc (line : Str) : Str := trim (sget line 36 43 [])

def msnCrs (line : Str) : Str := trim (sget line 49 52 [])

def msnEastingStr (line : Str) : Str := sget line 52 57 (str "0")

def msnNorthingStr (line : Str) : Str := sget line 58 63 (str "0")

/-- The projected easting/northing fed to the conversion: the parsed
field (zero when unparseable) scaled by 100. -/
def msnEN (pn : Str → Option Rat) (line : Str) : Rat × Rat :=
  (((pn (trim (msnEastingStr line))).getD 0) * 100,
   ((pn (trim (msnNorthingStr line))).getD 0) * 100)

/-- The coordinates the resolver stores for one reference line: the
external geocode lookup by short code is authoritative; otherwise the
projected conversion, defaulting to `(0, 0)` on failure. -/
def msnCoords (lookup : List (Str × (Rat × Rat))) (pn : Str → Option Rat)
    (cv : Rat → Rat → Option (Rat × Rat)) (line : Str) : Rat × Rat :=
  match alFind lookup (msnCrs line) with
  | some c => c
  | none =>
    match cv (msnEN pn line).1 (msnEN pn line).2 with
    | some c => c
    | none => (0, 0)

/-- One line of `parse_msn`: a station reference line (leading `A`)
inserts/overwrites the station keyed by its location code, unless that
code is empty. -/
def msnStep (lookup : List (Str × (Rat × Rat))) (pn : Str → Option Rat)
    (cv : Rat → Rat → Option (Rat × Rat))
    (map : List (Str × ParsedStation)) (line : Str) : List (Str × ParsedStation) :=
  if msnStartsA line then
    let tiploc := msnTiploc line
    let coords := msnCoords lookup pn cv line
    if tiploc ≠ [] then
      alSet map tiploc ⟨tiploc, msnName line, coords.1, coords.2⟩
    else map
  else map

/-- `parse_msn` of the source over a list of lines. -/
def parse_msn (lookup : List (Str × (Rat × Rat))) (pn : Str → Option Rat)
    (cv : Rat → Rat → Option (Rat × Rat))
    (lines : List Str) : List (Str × ParsedStation) :=
  lines.foldl (msnStep lookup pn cv) []

/-! ## parse_mca (timetable state machine and consolidation engine) -/

structure MCAState where
  current_trip : Option TripState
  seq_counter : Nat
  trip_service_to_id : List (TripServiceSignature × Str)
  uid_usage_count : List (Str × Nat)
  calendar_signature_to_id : List (CalendarSignature × Str)
  service_counter : Nat
  agencies : List Agency
  routes : List (Str × Route)
  trips_out : List Trip
  stop_times_out : List StopTime
  calendar_out : List Calendar
  assoc_out : List Association
  log : List FinalEvent
deriving Repr

def mcaInit : MCAState :=
  ⟨none, 0, [], [], [], 0, [], [], [], [], [], [], []⟩

/-- The synthetic service identifier `SVC{n}`. -/
def svcId (n : Nat) : Str := str "SVC" ++ natDec n

/-- Schedule-basic (`BS`) record: cancellation discards the accumulator,
otherwise a fresh accumulator is seeded and the sequence counter reset. -/
def stepBS (s : MCAState) (line : Str) : MCAState :=
  let uid := sget line 3 9 []
  let d_start := sget line 9 15 []
  let d_end := sget line 15 21 []
  let days := sget line 21 28 (str "0000000")
  let train_id := trim (sget line 32 36 [])
  let stp := sget line 79 80 (str "P")
  if stp = str "C" then { s with current_trip := none }
  else
    { s with
      current_trip := some ⟨uid, d_start, d_end, days, stp, str "NR", train_id, [], [], []⟩,
      seq_counter := 1 }

/-- Schedule-extra (`BX`) record: overwrite the operator code when
non-empty. -/
def stepBX (s : MCAState) (line : Str) : MCAState :=
  match s.current_trip with
  | none => s
  | some t =>
    let atoc := trim (sget line 11 13 (str "NR"))
    if atoc ≠ [] then { s with current_trip := some { t with atoc_code := atoc } }
    else s

/-- Origin-location (`LO`) record: when the location code resolves,
record the origin name and append the first stop event. -/
def stepLO (tm : List (Str × ParsedStation)) (s : MCAState) (line : Str) : MCAState :=
  match s.current_trip with
  | none => s
  | some t =>
    let tiploc := trim (sget line 2 9 [])
    let dep_sched := format_time (sget line 10 15 (str "00000"))
    match alFind tm tiploc with
    | none => s
    | some station =>
      { s with
        current_trip := some
          { t with
            origin_name := station.name,
            stops := t.stops ++
              [⟨str "PLACEHOLDER", dep_sched, dep_sched, tiploc, s.seq_counter⟩] },
        seq_counter := s.seq_counter + 1 }

/-- Intermediate-location (`LI`) record: skip entirely when both public
times are the zero sentinel; otherwise append when the code resolves. -/
def stepLI (tm : List (Str × ParsedStation)) (s : MCAState) (line : Str) : MCAState :=
  match s.current_trip with
  | none => s
  | some t =>
    let tiploc := trim (sget line 2 9 [])
    let arr_sched := format_time (sget line 10 15 (str "00000"))
    let dep_sched := format_time (sget line 15 20 (str "00000"))
    let pub_arr := sget line 25 29 (str "0000")
    let pub_dep := sget line 29 33 (str "0000")
    if pub_arr = str "0000" ∧ pub_dep = str "0000" then s
    else if (alFind tm tiploc).isSome then
      { s with
        current_trip := some
          { t with
            stops := t.stops ++
              [⟨str "PLACEHOLDER", arr_sched, dep_sched, tiploc, s.seq_counter⟩] },
        seq_counter := s.seq_counter + 1 }
    else s

/-- Association (`AA`) record: emitted directly, no deduplication. -/
def stepAA (s : MCAState) (line : Str) : MCAState :=
  { s with
    assoc_out := s.assoc_out ++
      [⟨sget line 3 9 [], sget line 9 15 [],
        str "20" ++ sget line 15 21 [], str "20" ++ sget line 21 27 [],
        sget line 27 34 [], sget line 34 36 [], trim (sget line 37 44 []),
        sget line 47 48 [], sget line 79 80 []⟩] }

/-- The accumulator a resolving terminal-location (`LT`) record produces:
destination name recorded and the terminal stop event appended (`none`
when the line is not a resolving `LT` record or no accumulator is open). -/
def ltTrip (tm : List (Str × ParsedStation)) (s : MCAState) (line : Str) :
    Option TripState :=
  if line.length < 2 then none
  else if line.take 2 = str "LT" then
    match s.current_trip with
    | none => none
    | some t =>
      let tiploc := trim (sget line 2 9 [])
      let arr_sched := format_time (sget line 10 15 (str "00000"))
      match alFind tm tiploc with
      | none => none
      | some station =>
        some
          { t with
            dest_name := station.name,
            stops := t.stops ++
              [⟨str "PLACEHOLDER", arr_sched, arr_sched, tiploc, s.seq_counter⟩] }
  else none

/-- Route identity of a finalized trip: operator code plus origin name,
overridden by the metro classifier for operator `LO` (whose line name is
never empty, so the override always applies there).  Returns
(route identifier, long name, short name, color, text color). -/
def routeInfoOf (tm : List (Str × ParsedStation)) (t1 : TripState) :
    Str × Str × Str × Str × Str :=
  let rid := t1.atoc_code ++ str "_" ++ t1.origin_name
  let rlong := t1.origin_name ++ str " to " ++ t1.dest_name
  if t1.atoc_code = str "LO" then
    match get_lo_line_details t1.stops tm with
    | (name, id, color) =>
      if name ≠ [] then (id, name, str "LO", color, str "FFFFFF")
      else (rid, rlong, t1.atoc_code, [], str "000000")
  else (rid, rlong, t1.atoc_code, [], str "000000")

def routeIdOf (tm : List (Str × ParsedStation)) (t1 : TripState) : Str :=
  (routeInfoOf tm t1).1

/-- Calendar signature of a finalized trip. -/
def calSigOf (t1 : TripState) : CalendarSignature :=
  let d_vec : List Nat := t1.days_run.map (fun c => if c = '1' then 1 else 0)
  ⟨d_vec.getD 0 0, d_vec.getD 1 0, d_vec.getD 2 0, d_vec.getD 3 0,
   d_vec.getD 4 0, d_vec.getD 5 0, d_vec.getD 6 0,
   str "20" ++ t1.date_start, str "20" ++ t1.date_end⟩

/-- The calendar row written for a newly allocated service identifier. -/
def calRow (sig : CalendarSignature) (id : Str) : Calendar :=
  ⟨id, sig.monday, sig.tuesday, sig.wednesday, sig.thursday, sig.friday,
   sig.saturday, sig.sunday, sig.start_date, sig.end_date⟩

/-- The service identifier a finalization resolves to: the mapped one
when the calendar signature was seen before, else the next synthetic one. -/
def serviceIdOf (s : MCAState) (t1 : TripState) : Str :=
  match alFind s.calendar_signature_to_id (calSigOf t1) with
  | some existing => existing
  | none => svcId s.service_counter

/-- Trip signature of a finalized trip: route, normalized stop pattern,
headsign, short train identifier. -/
def tripSigOf (tm : List (Str × ParsedStation)) (t1 : TripState) : TripSignature :=
  ⟨routeIdOf tm t1,
   t1.stops.map (fun st => (st.stop_id, st.arrival_time, st.departure_time)),
   t1.dest_name, t1.train_identity⟩

/-- Composite trip+service signature computed by a resolving `LT` line. -/
def ltSig (tm : List (Str × ParsedStation)) (s : MCAState) (line : Str) :
    Option TripServiceSignature :=
  (ltTrip tm s line).map (fun t1 => ⟨tripSigOf tm t1, serviceIdOf s t1⟩)

/-- Calendar deduplication: reuse the mapped service identifier, or
allocate the next sequential one, write its calendar row and record the
mapping. -/
def calStep (s : MCAState) (sig : CalendarSignature) : Str × MCAState :=
  match alFind s.calendar_signature_to_id sig with
  | some existing => (existing, s)
  | none =>
    let nid := svcId s.service_counter
    (nid,
     { s with
       calendar_signature_to_id := s.calendar_signature_to_id ++ [(sig, nid)],
       service_counter := s.service_counter + 1,
       calendar_out := s.calendar_out ++ [calRow sig nid] })

/-- Trip+service deduplication and emission: a seen composite signature
suppresses emission entirely; a new one allocates the trip identifier
(bare UID on the UID's first use, else suffixed with start date and
revision indicator), records the mapping and writes the trips row and its
stop rows. -/
def emitStep (tm : List (Str × ParsedStation)) (s : MCAState) (t1 : TripState)
    (service_id : Str) : MCAState :=
  let tsig : TripServiceSignature := ⟨tripSigOf tm t1, service_id⟩
  match alFind s.trip_service_to_id tsig with
  | some _ =>
    { s with log := s.log ++ [⟨tsig, t1.uid, t1.date_start, t1.stp_ind, false, [], t1.stops⟩] }
  | none =>
    let cnt := (alFind s.uid_usage_count t1.uid).getD 0
    let ntid :=
      if cnt = 0 then t1.uid
      else t1.uid ++ str "_" ++ t1.date_start ++ str "_" ++ t1.stp_ind
    { s with
      uid_usage_count := alSet s.uid_usage_count t1.uid (cnt + 1),
      trip_service_to_id := s.trip_service_to_id ++ [(tsig, ntid)],
      trips_out := s.trips_out ++
        [⟨tsig.trip_sig.route_id, service_id, ntid, t1.dest_name, t1.train_identity⟩],
      stop_times_out := s.stop_times_out ++
        t1.stops.map (fun st => { st with trip_id := ntid }),
      log := s.log ++ [⟨tsig, t1.uid, t1.date_start, t1.stp_ind, true, ntid, t1.stops⟩] }

/-- The part of a terminal-location finalization that precedes the
deduplication maps: record the mutated accumulator (the source leaves it
in place; it does not reset to idle), insert the agency row into the set,
and insert the route row first-writer-wins. -/
def finalizePre (tm : List (Str × ParsedStation)) (toc : List (Str × Str))
    (s : MCAState) (t1 : TripState) : MCAState :=
  let agency_name :=
    match alFind toc t1.atoc_code with
    | some n => n
    | none => str "National Rail (" ++ t1.atoc_code ++ str ")"
  let info := routeInfoOf tm t1
  let agency : Agency :=
    ⟨t1.atoc_code, agency_name, str "http://www.nationalrail.co.uk", str "Europe/London"⟩
  { s with
    current_trip := some t1,
    agencies := if agency ∈ s.agencies then s.agencies else s.agencies ++ [agency],
    routes :=
      match alFind s.routes info.1 with
      | some _ => s.routes
      | none =>
        s.routes ++ [(info.1, ⟨info.1, t1.atoc_code, info.2.2.1, info.2.1, 2,
          info.2.2.2.1, info.2.2.2.2⟩)] }

/-- The whole terminal-location finalization: agency and route rows
(first writer wins), then calendar deduplication, then trip+service
deduplication and emission. -/
def finalizeTrip (tm : List (Str × ParsedStation)) (toc : List (Str × Str))
    (s : MCAState) (t1 : TripState) : MCAState :=
  let p := calStep (finalizePre tm toc s t1) (calSigOf t1)
  emitStep tm p.2 t1 p.1

/-- One line of `parse_mca`: dispatch on the 2-character record type. -/
def mcaStep (tm : List (Str × ParsedStation)) (toc : List (Str × Str))
    (s : MCAState) (line : Str) : MCAState :=
  if line.length < 2 then s
  else if line.take 2 = str "BS" then stepBS s line
  else if line.take 2 = str "BX" then stepBX s line
  else if line.take 2 = str "LO" then stepLO tm s line
  else if line.take 2 = str "LI" then stepLI tm s line
  else if line.take 2 = str "LT" then
    match ltTrip tm s line with
    | some t1 => finalizeTrip tm toc s t1
    | none => s
  else if line.take 2 = str "AA" then stepAA s line
  else s

/-- `parse_mca` of the source over a list of lines, from the initial
state (empty consolidation maps, idle accumulator). -/
def parse_mca (tm : List (Str × ParsedStation)) (toc : List (Str × Str))
    (lines : List Str) : MCAState :=
  lines.foldl (mcaStep tm toc) mcaInit

/-- The trips row corresponding to an emitted finalization event. -/
def eventTripRow (e : FinalEvent) : Trip :=
  ⟨e.sig.trip_sig.route_id, e.sig.service_id, e.trip_id,
   e.sig.trip_sig.headsign, e.sig.trip_sig.train_identity⟩

/-- The stop_times rows written for an emitted finalization event: its
stop events with the assigned trip identifier substituted. -/
def eventStopRows (e : FinalEvent) : List StopTime :=
  e.stops.map (fun st => { st with trip_id := e.trip_id })

/-- The emitted finalization events carrying a given business UID. -/
def emittedWithUid (log : List FinalEvent) (u : Str) : List FinalEvent :=
  log.filter (fun e => e.emitted && e.uid == u)

/-- Cancellation schedule-basic record (revision indicator `C`). -/
def isCancelBS (line : Str) : Bool :=
  decide (2 ≤ line.length) && line.take 2 == str "BS" && sget line 79 80 (str "P") == str "C"

/-- Non-cancelled schedule-basic record (the only record kind that can
reopen an accumulator). -/
def isNonCancelBS (line : Str) : Bool :=
  decide (2 ≤ line.length) && line.take 2 == str "BS" && sget line 79 80 (str "P") != str "C"

/-- Terminal-location record. -/
def isLT (line : Str) : Bool :=
  decide (2 ≤ line.length) && line.take 2 == str "LT"

/-! ## Specification bundles and fixtures -/

/-- The consolidation state and the output row lists the suppression
claims speak about. -/
def ConsolEq (a b : MCAState) : Prop :=
  a.trip_service_to_id = b.trip_service_to_id ∧
  a.uid_usage_count = b.uid_usage_count ∧
  a.calendar_signature_to_id = b.calendar_signature_to_id ∧
  a.service_counter = b.service_counter ∧
  a.trips_out = b.trips_out ∧
  a.stop_times_out = b.stop_times_out ∧
  a.calendar_out = b.calendar_out

/-- `ConsolEq` plus the finalization event log, the agency set and the
route map: everything a non-finalizing step leaves untouched. -/
def QuietEq (a b : MCAState) : Prop :=
  ConsolEq a b ∧ a.log = b.log ∧ a.agencies = b.agencies ∧ a.routes = b.routes

/-- The trip identifier chosen for an emission. -/
def newTripId (s : MCAState) (t1 : TripState) : Str :=
  if (alFind s.uid_usage_count t1.uid).getD 0 = 0 then t1.uid
  else t1.uid ++ str "_" ++ t1.date_start ++ str "_" ++ t1.stp_ind

/-- Invariant of the consolidation state, stated over the components
`(trip-service map, uid counters, calendar map, service counter,
trips rows, stop_times rows, calendar rows, finalization log)`:

* calendar-map values are `SVC0, SVC1, ...` in allocation order, its keys
  are pairwise distinct, and the calendar rows carry exactly those
  identifiers in order;
* trip-service-map keys are pairwise distinct and every key's service
  identifier has been allocated;
* emitted log events correspond one-to-one and in order to the
  trip-service-map entries, to the trips rows, and (via their stop lists)
  to the stop_times rows;
* the uid counters count exactly the emitted events of each UID;
* an event is emitted exactly when its composite signature had not
  appeared in any earlier event;
* every logged signature is a trip-service-map key;
* within the emitted events of one UID, the first carries the bare UID
  and each later one the date/revision-suffixed identifier. -/
structure InvC (tsmap : List (TripServiceSignature × Str)) (uidmap : List (Str × Nat))
    (calmap : List (CalendarSignature × Str)) (counter : Nat) (trips : List Trip)
    (sts : List StopTime) (cals : List Calendar) (log : List FinalEvent) : Prop where
  calVals : calmap.map Prod.snd = (List.range counter).map svcId
  calKeys : (calmap.map Prod.fst).Nodup
  calRows : cals.map Calendar.service_id = (List.range counter).map svcId
  tripKeys : (tsmap.map Prod.fst).Nodup
  tripSvc : ∀ p ∈ tsmap, p.1.service_id ∈ (List.range counter).map svcId
  logKeys : (log.filter (fun e => e.emitted)).map FinalEvent.sig = tsmap.map Prod.fst
  tripsLink : trips = (log.filter (fun e => e.emitted)).map eventTripRow
  stLink : sts = (log.filter (fun e => e.emitted)).flatMap eventStopRows
  uidCounts : ∀ u, (alFind uidmap u).getD 0 = (emittedWithUid log u).length
  temporal : ∀ i (hi : i < log.length),
    log[i].emitted = true ↔ log[i].sig ∉ (log.take i).map FinalEvent.sig
  logMem : ∀ e ∈ log, e.sig ∈ tsmap.map Prod.fst
  uidIds : ∀ u i (hi : i < (emittedWithUid log u).length),
    (emittedWithUid log u)[i].trip_id =
      if i = 0 then u
      else u ++ str "_" ++ (emittedWithUid log u)[i].date_start ++ str "_" ++
        (emittedWithUid log u)[i].stp_ind

/-- The run invariant of a machine state. -/
abbrev MCAInv (s : MCAState) : Prop :=
  InvC s.trip_service_to_id s.uid_usage_count s.calendar_signature_to_id s.service_counter
    s.trips_out s.stop_times_out s.calendar_out s.log

/-! ## Concrete fixtures (used by witnesses and counterexamples) -/

def mcaTM : List (Str × ParsedStation) :=
  [(str "STNA", ⟨str "STNA", str "ALPHA", 0, 0⟩),
   (str "STNB", ⟨str "STNB", str "BETA", 0, 0⟩),
   (str "STNC", ⟨str "STNC", str "GAMMA", 0, 0⟩)]

def bsA : Str := str "BSNAAAAAA2401012412311111100    2A01"

def bsB : Str := str "BSNBBBBBB2401012412311111100    2A01"

def bsB2 : Str := str "BSNBBBBBB2401012412311111100    2A02"

def loA : Str := str "LOSTNA    09300"

def liB : Str := str "LISTNB    1000010005     10001005"

def liZero : Str := str "LISTNB    1000010005     00000000"

def ltC : Str := str "LTSTNC    10300"

def bsCancel : Str :=
  str "BSNCCCCCC2401012412311111100" ++ List.replicate 51 ' ' ++ [ 'C' ]

def mcaLines2 : List Str := [bsA, loA, liB, ltC, bsB, loA, liB, ltC, bsB2, loA, ltC]

def c3state : MCAState := parse_mca mcaTM [] [bsA, loA, liB, ltC, bsB2, loA]

def c3trip : TripState :=
  (ltTrip mcaTM c3state ltC).getD ⟨[], [], [], [], [], [], [], [], [], []⟩

def c6state : MCAState := parse_mca mcaTM [] [bsA, loA]

def c6trip : TripState :=
  c6state.current_trip.getD ⟨[], [], [], [], [], [], [], [], [], []⟩

def c10state : MCAState := parse_mca mcaTM [] [bsA, loA, liB, ltC, bsB, loA, liB]

def c10sig : TripServiceSignature :=
  (ltSig mcaTM c10state ltC).getD ⟨⟨[], [], [], []⟩, []⟩

def tmLO : List (Str × ParsedStation) :=
  [(str "GOSPELO", ⟨str "GOSPELO", str "GOSPEL OAK", 0, 0⟩),
   (str "BARKING", ⟨str "BARKING", str "BARKING", 0, 0⟩),
   (str "EUSTON", ⟨str "EUSTON", str "LONDON EUSTON", 0, 0⟩),
   (str "WATFDJ", ⟨str "WATFDJ", str "WATFORD JUNCTION", 0, 0⟩)]

def bxLO : Str := str "BX         LO"

def linesLO : List Str :=
  [bsA, bxLO, str "LOGOSPELO 09300", str "LIBARKING 1000010005     10001005",
   str "LIEUSTON  1010010105     10101010", str "LTWATFDJ  10300"]

def tmLW : List (Str × ParsedStation) :=
  [(str "EUSTON", ⟨str "EUSTON", str "LONDON EUSTON", 0, 0⟩),
   (str "WATFDJ", ⟨str "WATFDJ", str "WATFORD JUNCTION", 0, 0⟩)]

def stopsLW : List StopTime :=
  [⟨[], [], [], str "EUSTON", 1⟩, ⟨[], [], [], str "WATFDJ", 2⟩]

def msnLine : Str :=
  str "A    " ++ str "ALPHA" ++ List.replicate 21 ' ' ++ List.replicate 5 ' ' ++
    str "STNA   " ++ List.replicate 6 ' ' ++ str "AAA"

/-! ## Decimal representation lemmas -/

theorem decVal_append_digit (l : Str) (c : Char) :
    decVal (l ++ [c]) = decVal l * 10 + (c.toNat - 48) := by
  unfold decVal
  rw [List.foldl_append]
  rfl

theorem toNat_digitChar (m : Nat) (h : m < 10) :
    (Char.ofNat (48 + m)).toNat = 48 + m := by
  interval_cases m <;> decide

theorem decVal_natDecGo (n : Nat) : decVal (natDecGo n) = n := by
  induction n using Nat.strong_induction_on with
  | _ n ih =>
    by_cases h : n = 0
    · subst h
      simp [natDecGo, decVal]
    · rw [natDecGo, dif_neg h, decVal_append_digit,
        ih (n / 10) (Nat.div_lt_self (Nat.pos_of_ne_zero h) (by omega)),
        toNat_digitChar (n % 10) (Nat.mod_lt _ (by omega))]
      omega

theorem decVal_natDec (n : Nat) : decVal (natDec n) = n := by
  unfold natDec
  split
  · simp_all [decVal, str]
  · exact decVal_natDecGo n

theorem natDec_inj {m n : Nat} (h : natDec m = natDec n) : m = n := by
  have := congrArg decVal h
  rwa [decVal_natDec, decVal_natDec] at this

theorem svcId_inj {m n : Nat} (h : svcId m = svcId n) : m = n := by
  unfold svcId at h
  exact natDec_inj (List.append_cancel_left h)

theorem svcId_fresh (n : Nat) : svcId n ∉ (List.range n).map svcId := by
  intro hmem
  rcases List.mem_map.mp hmem with ⟨k, hk, he⟩
  rw [svcId_inj he] at hk
  exact absurd (List.mem_range.mp hk) (lt_irrefl n)

/-! ## Association list lemmas -/

theorem alFind_nil {α β : Type} [DecidableEq α] (x : α) :
    alFind ([] : List (α × β)) x = none := rfl

theorem alFind_cons {α β : Type} [DecidableEq α] (k : α) (w : β) (r : List (α × β)) (x : α) :
    alFind ((k, w) :: r) x = if k = x then some w else alFind r x := rfl

theorem alSet_nil {α β : Type} [DecidableEq α] (k : α) (v : β) :
    alSet ([] : List (α × β)) k v = [(k, v)] := rfl

theorem alSet_cons {α β : Type} [DecidableEq α] (pk : α) (pv : β) (r : List (α × β))
    (k : α) (v : β) :
    alSet ((pk, pv) :: r) k v = if pk = k then (k, v) :: r else (pk, pv) :: alSet r k v := rfl

theorem alFind_append_some {α β : Type} [DecidableEq α] {l m : List (α × β)} {x : α} {v : β}
    (h : alFind l x = some v) : alFind (l ++ m) x = some v := by
  induction l with
  | nil => simp [alFind] at h
  | cons p r ih =>
    obtain ⟨k, w⟩ := p
    rw [List.cons_append]
    rw [alFind_cons] at h ⊢
    by_cases hk : k = x
    · rw [if_pos hk] at h ⊢
      exact h
    · rw [if_neg hk] at h ⊢
      exact ih h

theorem alFind_append_none {α β : Type} [DecidableEq α] {l : List (α × β)} (m : List (α × β))
    {x : α} (h : alFind l x = none) : alFind (l ++ m) x = alFind m x := by
  induction l with
  | nil => rw [List.nil_append]
  | cons p r ih =>
    obtain ⟨k, w⟩ := p
    rw [List.cons_append]
    rw [alFind_cons] at h ⊢
    by_cases hk : k = x
    · rw [if_pos hk] at h
      cases h
    · rw [if_neg hk] at h ⊢
      exact ih h

theorem alFind_eq_none_iff {α β : Type} [DecidableEq α] {l : List (α × β)} {x : α} :
    alFind l x = none ↔ x ∉ l.map Prod.fst := by
  induction l with
  | nil => simp [alFind]
  | cons p r ih =>
    unfold alFind
    split
    · simp_all
    · simp_all [eq_comm]

theorem alFind_mem_fst {α β : Type} [DecidableEq α] {l : List (α × β)} {x : α} {v : β}
    (h : alFind l x = some v) : x ∈ l.map Prod.fst := by
  by_contra hx
  rw [alFind_eq_none_iff.mpr hx] at h
  cases h

theorem alFind_mem_snd {α β : Type} [DecidableEq α] {l : List (α × β)} {x : α} {v : β}
    (h : alFind l x = some v) : v ∈ l.map Prod.snd := by
  induction l with
  | nil => simp [alFind] at h
  | cons p r ih =>
    unfold alFind at h
    split at h
    · simp_all
    · simp [ih h]

theorem alFind_isSome_of_mem {α β : Type} [DecidableEq α] {l : List (α × β)} {x : α}
    (h : x ∈ l.map Prod.fst) : ∃ v, alFind l x = some v := by
  cases hv : alFind l x with
  | none => exact absurd h (alFind_eq_none_iff.mp hv)
  | some v => exact ⟨v, rfl⟩

theorem alFind_alSet_self {α β : Type} [DecidableEq α] (l : List (α × β)) (k : α) (v : β) :
    alFind (alSet l k v) k = some v := by
  induction l with
  | nil => simp [alSet, alFind]
  | cons p r ih =>
    unfold alSet
    split
    · simp [alFind]
    · rename_i hne
      unfold alFind
      split
      · exact absurd (by assumption) hne
      · exact ih

theorem alFind_alSet_ne {α β : Type} [DecidableEq α] (l : List (α × β)) (k : α) (v : β)
    {x : α} (h : x ≠ k) : alFind (alSet l k v) x = alFind l x := by
  induction l with
  | nil =>
    rw [alSet_nil, alFind_cons, alFind_nil, if_neg (fun he => h he.symm)]
  | cons p r ih =>
    obtain ⟨pk, pv⟩ := p
    rw [alSet_cons]
    by_cases hpk : pk = k
    · rw [if_pos hpk, alFind_cons, alFind_cons,
        if_neg (fun he => h he.symm), if_neg (by rw [hpk]; exact fun he => h he.symm)]
    · rw [if_neg hpk, alFind_cons, alFind_cons]
      by_cases hpx : pk = x
      · rw [if_pos hpx, if_pos hpx]
      · rw [if_neg hpx, if_neg hpx]
        exact ih

/-! ## State-equality bundles and step characterizations -/

theorem quietEq_refl (s : MCAState) : QuietEq s s :=
  ⟨⟨rfl, rfl, rfl, rfl, rfl, rfl, rfl⟩, rfl, rfl, rfl⟩

theorem quietEq_trans {a b c : MCAState} (h1 : QuietEq a b) (h2 : QuietEq b c) :
    QuietEq a c := by
  obtain ⟨⟨a1, a2, a3, a4, a5, a6, a7⟩, a8, a9, a10⟩ := h1
  obtain ⟨⟨b1, b2, b3, b4, b5, b6, b7⟩, b8, b9, b10⟩ := h2
  exact ⟨⟨a1.trans b1, a2.trans b2, a3.trans b3, a4.trans b4, a5.trans b5,
    a6.trans b6, a7.trans b7⟩, a8.trans b8, a9.trans b9, a10.trans b10⟩

theorem quietEq_stepBS (s : MCAState) (l : Str) : QuietEq (stepBS s l) s := by
  unfold stepBS
  dsimp only
  split <;> exact ⟨⟨rfl, rfl, rfl, rfl, rfl, rfl, rfl⟩, rfl, rfl, rfl⟩

theorem quietEq_stepBX (s : MCAState) (l : Str) : QuietEq (stepBX s l) s := by
  unfold stepBX
  split
  · exact quietEq_refl s
  · dsimp only
    split <;> exact ⟨⟨rfl, rfl, rfl, rfl, rfl, rfl, rfl⟩, rfl, rfl, rfl⟩

theorem quietEq_stepLO (tm : List (Str × ParsedStation)) (s : MCAState) (l : Str) :
    QuietEq (stepLO tm s l) s := by
  unfold stepLO
  split
  · exact quietEq_refl s
  · dsimp only
    split <;> exact ⟨⟨rfl, rfl, rfl, rfl, rfl, rfl, rfl⟩, rfl, rfl, rfl⟩

theorem quietEq_stepLI (tm : List (Str × ParsedStation)) (s : MCAState) (l : Str) :
    QuietEq (stepLI tm s l) s := by
  unfold stepLI
  split
  · exact quietEq_refl s
  · dsimp only
    split
    · exact quietEq_refl s
    split <;> exact ⟨⟨rfl, rfl, rfl, rfl, rfl, rfl, rfl⟩, rfl, rfl, rfl⟩

theorem quietEq_stepAA (s : MCAState) (l : Str) : QuietEq (stepAA s l) s :=
  ⟨⟨rfl, rfl, rfl, rfl, rfl, rfl, rfl⟩, rfl, rfl, rfl⟩

/-- A line that does not finalize a trip leaves the consolidation state,
the outputs, the log, the agencies and the routes untouched. -/
theorem mcaStep_nonfinal (tm : List (Str × ParsedStation)) (toc : List (Str × Str))
    (s : MCAState) (l : Str) (h : ltTrip tm s l = none) :
    QuietEq (mcaStep tm toc s l) s := by
  unfold mcaStep
  split_ifs with h0 h1 h2 h3 h4 h5 h6
  · exact quietEq_refl s
  · exact quietEq_stepBS s l
  · exact quietEq_stepBX s l
  · exact quietEq_stepLO tm s l
  · exact quietEq_stepLI tm s l
  · rw [h]
    exact quietEq_refl s
  · exact quietEq_stepAA s l
  · exact quietEq_refl s

theorem ltTrip_facts {tm : List (Str × ParsedStation)} {s : MCAState} {l : Str}
    {t1 : TripState} (h : ltTrip tm s l = some t1) :
    ¬ l.length < 2 ∧ l.take 2 = str "LT" := by
  by_cases h1 : l.length < 2
  · unfold ltTrip at h
    rw [if_pos h1] at h
    cases h
  · by_cases h2 : l.take 2 = str "LT"
    · exact ⟨h1, h2⟩
    · unfold ltTrip at h
      rw [if_neg h1, if_neg h2] at h
      cases h

/-- A resolving terminal-location line runs the finalization. -/
theorem mcaStep_final (tm : List (Str × ParsedStation)) (toc : List (Str × Str))
    (s : MCAState) (l : Str) (t1 : TripState) (h : ltTrip tm s l = some t1) :
    mcaStep tm toc s l = finalizeTrip tm toc s t1 := by
  obtain ⟨h1, h2⟩ := ltTrip_facts h
  unfold mcaStep
  rw [if_neg h1, h2,
    if_neg (by decide : ¬ (str "LT" = str "BS")),
    if_neg (by decide : ¬ (str "LT" = str "BX")),
    if_neg (by decide : ¬ (str "LT" = str "LO")),
    if_neg (by decide : ¬ (str "LT" = str "LI")),
    if_pos (rfl : str "LT" = str "LT"), h]

/-- With an idle accumulator, `ltTrip` never produces a trip. -/
theorem ltTrip_none_of_idle {tm : List (Str × ParsedStation)} {s : MCAState}
    (h0 : s.current_trip = none) (l : Str) : ltTrip tm s l = none := by
  unfold ltTrip
  split_ifs
  · rfl
  · rw [h0]
  · rfl

/-- With an idle accumulator, any record other than a non-cancelled
schedule-basic one keeps the accumulator idle and emits nothing (only an
association row at most). -/
theorem mcaStep_null (tm : List (Str × ParsedStation)) (toc : List (Str × Str))
    (s : MCAState) (w : Str) (h0 : s.current_trip = none)
    (hw : isNonCancelBS w = false) :
    QuietEq (mcaStep tm toc s w) s ∧ (mcaStep tm toc s w).current_trip = none := by
  unfold mcaStep
  split_ifs with hlen h1 h2 h3 h4 h5 h6
  · exact ⟨quietEq_refl s, h0⟩
  · -- schedule-basic: must be a cancellation
    have h2n : 2 ≤ w.length := Nat.not_lt.mp hlen
    have hstp : sget w 79 80 (str "P") = str "C" := by
      unfold isNonCancelBS at hw
      simpa [h2n, h1] using hw
    unfold stepBS
    dsimp only
    rw [if_pos hstp]
    exact ⟨⟨⟨rfl, rfl, rfl, rfl, rfl, rfl, rfl⟩, rfl, rfl, rfl⟩, rfl⟩
  · unfold stepBX
    rw [h0]
    exact ⟨quietEq_refl s, h0⟩
  · unfold stepLO
    rw [h0]
    exact ⟨quietEq_refl s, h0⟩
  · unfold stepLI
    rw [h0]
    exact ⟨quietEq_refl s, h0⟩
  · rw [ltTrip_none_of_idle h0 w]
    exact ⟨quietEq_refl s, h0⟩
  · exact ⟨quietEq_stepAA s w, h0⟩
  · exact ⟨quietEq_refl s, h0⟩

/-- Folding over records none of which is a non-cancelled schedule-basic
record preserves the idle state and everything `QuietEq` tracks. -/
theorem mcaFold_null (tm : List (Str × ParsedStation)) (toc : List (Str × Str))
    (ws : List Str) :
    ∀ s : MCAState, s.current_trip = none → (∀ w ∈ ws, isNonCancelBS w = false) →
    QuietEq (ws.foldl (mcaStep tm toc) s) s ∧
      (ws.foldl (mcaStep tm toc) s).current_trip = none := by
  induction ws with
  | nil => exact fun s h0 _ => ⟨quietEq_refl s, h0⟩
  | cons w ws ih =>
    intro s h0 hws
    obtain ⟨hq, hc⟩ := mcaStep_null tm toc s w h0 (hws w (by simp))
    obtain ⟨hq2, hc2⟩ := ih (mcaStep tm toc s w) hc (fun x hx => hws x (by simp [hx]))
    exact ⟨quietEq_trans hq2 hq, hc2⟩

theorem calStep_found {s : MCAState} {sig : CalendarSignature} {i : Str}
    (h : alFind s.calendar_signature_to_id sig = some i) : calStep s sig = (i, s) := by
  unfold calStep
  rw [h]

theorem calStep_new {s : MCAState} {sig : CalendarSignature}
    (h : alFind s.calendar_signature_to_id sig = none) :
    calStep s sig = (svcId s.service_counter,
      { s with
        calendar_signature_to_id :=
          s.calendar_signature_to_id ++ [(sig, svcId s.service_counter)],
        service_counter := s.service_counter + 1,
        calendar_out := s.calendar_out ++ [calRow sig (svcId s.service_counter)] }) := by
  unfold calStep
  rw [h]

theorem emitStep_dup {tm : List (Str × ParsedStation)} {s : MCAState} {t1 : TripState}
    {sid : Str} {v : Str}
    (h : alFind s.trip_service_to_id ⟨tripSigOf tm t1, sid⟩ = some v) :
    emitStep tm s t1 sid =
      { s with log := s.log ++
          [⟨⟨tripSigOf tm t1, sid⟩, t1.uid, t1.date_start, t1.stp_ind, false, [], t1.stops⟩] } := by
  unfold emitStep
  dsimp only
  rw [h]

theorem emitStep_new {tm : List (Str × ParsedStation)} {s : MCAState} {t1 : TripState}
    {sid : Str}
    (h : alFind s.trip_service_to_id ⟨tripSigOf tm t1, sid⟩ = none) :
    emitStep tm s t1 sid =
      { s with
        uid_usage_count :=
          alSet s.uid_usage_count t1.uid ((alFind s.uid_usage_count t1.uid).getD 0 + 1),
        trip_service_to_id :=
          s.trip_service_to_id ++ [(⟨tripSigOf tm t1, sid⟩, newTripId s t1)],
        trips_out := s.trips_out ++
          [⟨(tripSigOf tm t1).route_id, sid, newTripId s t1, t1.dest_name, t1.train_identity⟩],
        stop_times_out := s.stop_times_out ++
          t1.stops.map (fun st => { st with trip_id := newTripId s t1 }),
        log := s.log ++
          [⟨⟨tripSigOf tm t1, sid⟩, t1.uid, t1.date_start, t1.stp_ind, true,
            newTripId s t1, t1.stops⟩] } := by
  unfold emitStep newTripId
  dsimp only
  rw [h]

theorem finalizePre_tsmap (tm : List (Str × ParsedStation)) (toc : List (Str × Str))
    (s : MCAState) (t1 : TripState) :
    (finalizePre tm toc s t1).trip_service_to_id = s.trip_service_to_id := rfl

theorem finalizePre_uid (tm : List (Str × ParsedStation)) (toc : List (Str × Str))
    (s : MCAState) (t1 : TripState) :
    (finalizePre tm toc s t1).uid_usage_count = s.uid_usage_count := rfl

theorem finalizePre_cal (tm : List (Str × ParsedStation)) (toc : List (Str × Str))
    (s : MCAState) (t1 : TripState) :
    (finalizePre tm toc s t1).calendar_signature_to_id = s.calendar_signature_to_id := rfl

theorem finalizePre_counter (tm : List (Str × ParsedStation)) (toc : List (Str × Str))
    (s : MCAState) (t1 : TripState) :
    (finalizePre tm toc s t1).service_counter = s.service_counter := rfl

theorem finalizePre_trips (tm : List (Str × ParsedStation)) (toc : List (Str × Str))
    (s : MCAState) (t1 : TripState) :
    (finalizePre tm toc s t1).trips_out = s.trips_out := rfl

theorem finalizePre_st (tm : List (Str × ParsedStation)) (toc : List (Str × Str))
    (s : MCAState) (t1 : TripState) :
    (finalizePre tm toc s t1).stop_times_out = s.stop_times_out := rfl

theorem finalizePre_calout (tm : List (Str × ParsedStation)) (toc : List (Str × Str))
    (s : MCAState) (t1 : TripState) :
    (finalizePre tm toc s t1).calendar_out = s.calendar_out := rfl

theorem finalizePre_log (tm : List (Str × ParsedStation)) (toc : List (Str × Str))
    (s : MCAState) (t1 : TripState) :
    (finalizePre tm toc s t1).log = s.log := rfl

theorem finalizeTrip_eq (tm : List (Str × ParsedStation)) (toc : List (Str × Str))
    (s : MCAState) (t1 : TripState) :
    finalizeTrip tm toc s t1 =
      emitStep tm (calStep (finalizePre tm toc s t1) (calSigOf t1)).2 t1
        (calStep (finalizePre tm toc s t1) (calSigOf t1)).1 := rfl

/-! ## The run invariant -/

theorem inv_init : MCAInv mcaInit := by
  constructor <;> simp [mcaInit, emittedWithUid, alFind]

theorem inv_copy {s s' : MCAState} (hq : QuietEq s' s) (h : MCAInv s) : MCAInv s' := by
  obtain ⟨⟨e1, e2, e3, e4, e5, e6, e7⟩, e8, _, _⟩ := hq
  unfold MCAInv at h ⊢
  rw [e1, e2, e3, e4, e5, e6, e7, e8]
  exact h

theorem emittedWithUid_append (log es : List FinalEvent) (u : Str) :
    emittedWithUid (log ++ es) u = emittedWithUid log u ++ emittedWithUid es u :=
  List.filter_append _ _

theorem emittedWithUid_single_false {e : FinalEvent} (he : e.emitted = false) (u : Str) :
    emittedWithUid [e] u = [] := by
  simp [emittedWithUid, he]

theorem emittedWithUid_single_true {e : FinalEvent} (he : e.emitted = true) (u : Str) :
    emittedWithUid [e] u = if e.uid = u then [e] else [] := by
  by_cases hu : e.uid = u <;> simp [emittedWithUid, he, hu]

/-- Appending one event whose emission flag matches first-occurrence of
its signature preserves the temporal characterization. -/
theorem temporal_append {log : List FinalEvent} {e : FinalEvent}
    (h : ∀ i (hi : i < log.length),
      log[i].emitted = true ↔ log[i].sig ∉ (log.take i).map FinalEvent.sig)
    (he : e.emitted = true ↔ e.sig ∉ log.map FinalEvent.sig) :
    ∀ i (hi : i < (log ++ [e]).length),
      (log ++ [e])[i].emitted = true ↔
        (log ++ [e])[i].sig ∉ ((log ++ [e]).take i).map FinalEvent.sig := by
  intro i hi
  rcases Nat.lt_or_ge i log.length with hlt | hge
  · rw [List.getElem_append_left hlt, List.take_append_of_le_length (le_of_lt hlt)]
    exact h i hlt
  · have hil : i = log.length := by
      simp only [List.length_append, List.length_singleton] at hi
      omega
    subst hil
    have hgot : (log ++ [e])[log.length] = e := List.getElem_concat_length log e log.length rfl hi
    rw [hgot, List.take_left]
    exact he

/-- Appending a suppressed event whose signature is already a
trip-service-map key preserves the invariant. -/
theorem invc_log_suppressed {tsmap : List (TripServiceSignature × Str)}
    {uidmap : List (Str × Nat)} {calmap : List (CalendarSignature × Str)} {counter : Nat}
    {trips : List Trip} {sts : List StopTime} {cals : List Calendar} {log : List FinalEvent}
    (h : InvC tsmap uidmap calmap counter trips sts cals log)
    (e : FinalEvent) (hemit : e.emitted = false) (hmem : e.sig ∈ tsmap.map Prod.fst) :
    InvC tsmap uidmap calmap counter trips sts cals (log ++ [e]) := by
  have hfil : (log ++ [e]).filter (fun x => x.emitted) = log.filter (fun x => x.emitted) := by
    rw [List.filter_append]
    simp [hemit]
  have hew : ∀ u, emittedWithUid (log ++ [e]) u = emittedWithUid log u := fun u => by
    rw [emittedWithUid_append, emittedWithUid_single_false hemit, List.append_nil]
  refine ⟨h.calVals, h.calKeys, h.calRows, h.tripKeys, h.tripSvc, ?_, ?_, ?_, ?_, ?_, ?_, ?_⟩
  · rw [hfil]
    exact h.logKeys
  · rw [hfil]
    exact h.tripsLink
  · rw [hfil]
    exact h.stLink
  · intro u
    rw [hew u]
    exact h.uidCounts u
  · apply temporal_append h.temporal
    constructor
    · intro hcontra
      rw [hemit] at hcontra
      cases hcontra
    · intro hnot
      exfalso
      apply hnot
      have hsig : e.sig ∈ (log.filter (fun x => x.emitted)).map FinalEvent.sig := by
        rw [h.logKeys]
        exact hmem
      rcases List.mem_map.mp hsig with ⟨e2, he2, hs⟩
      exact hs ▸ List.mem_map_of_mem _ (List.mem_of_mem_filter he2)
  · intro x hx
    rcases List.mem_append.mp hx with h1 | h1
    · exact h.logMem x h1
    · simp only [List.mem_singleton] at h1
      subst h1
      exact hmem
  · intro u i hi
    simp only [hew u] at hi ⊢
    exact h.uidIds u i hi

/-- `emitStep` preserves the invariant provided the resolved service
identifier has been allocated. -/
theorem inv_emit (tm : List (Str × ParsedStation)) {s : MCAState} (t1 : TripState)
    (sid : Str) (h : MCAInv s)
    (hsid : sid ∈ (List.range s.service_counter).map svcId) :
    MCAInv (emitStep tm s t1 sid) := by
  cases ht : alFind s.trip_service_to_id ⟨tripSigOf tm t1, sid⟩ with
  | some v =>
    rw [emitStep_dup ht]
    exact invc_log_suppressed h _ rfl (alFind_mem_fst ht)
  | none =>
    rw [emitStep_new ht]
    have hnotin : (⟨tripSigOf tm t1, sid⟩ : TripServiceSignature) ∉
        s.trip_service_to_id.map Prod.fst := alFind_eq_none_iff.mp ht
    have hnotlog : (⟨tripSigOf tm t1, sid⟩ : TripServiceSignature) ∉
        s.log.map FinalEvent.sig := by
      intro hmem
      rcases List.mem_map.mp hmem with ⟨e2, he2, hs⟩
      exact hnotin (hs ▸ h.logMem e2 he2)
    have hfil : ∀ e1 : FinalEvent, e1.emitted = true →
        (s.log ++ [e1]).filter (fun x => x.emitted) =
          s.log.filter (fun x => x.emitted) ++ [e1] := fun e1 he1 => by
      rw [List.filter_append]
      simp [he1]
    refine ⟨h.calVals, h.calKeys, h.calRows, ?_, ?_, ?_, ?_, ?_, ?_, ?_, ?_, ?_⟩
    · -- tripKeys
      rw [List.map_append]
      refine List.Nodup.append h.tripKeys (List.nodup_singleton _) ?_
      intro a ha hb
      simp only [List.map_cons, List.map_nil, List.mem_singleton] at hb
      subst hb
      exact hnotin ha
    · -- tripSvc
      intro p hp
      rcases List.mem_append.mp hp with h1 | h1
      · exact h.tripSvc p h1
      · simp only [List.mem_singleton] at h1
        subst h1
        exact hsid
    · -- logKeys
      rw [hfil _ rfl, List.map_append, List.map_append, h.logKeys]
      rfl
    · -- tripsLink
      rw [hfil _ rfl, List.map_append, h.tripsLink]
      rfl
    · -- stLink
      rw [hfil _ rfl, List.flatMap_append, h.stLink]
      simp [eventStopRows]
    · -- uidCounts
      intro u
      by_cases hu : t1.uid = u
      · subst hu
        rw [alFind_alSet_self, emittedWithUid_append,
          emittedWithUid_single_true (show (true : Bool) = true from rfl), if_pos rfl]
        simp only [Option.getD_some, List.length_append, List.length_singleton]
        rw [h.uidCounts t1.uid]
      · rw [alFind_alSet_ne _ _ _ (fun hh => hu hh.symm), emittedWithUid_append,
          emittedWithUid_single_true (show (true : Bool) = true from rfl),
          if_neg (fun hh : t1.uid = u => hu hh), List.append_nil]
        exact h.uidCounts u
    · -- temporal
      apply temporal_append h.temporal
      exact iff_of_true rfl hnotlog
    · -- logMem
      intro x hx
      rw [List.map_append]
      rcases List.mem_append.mp hx with h1 | h1
      · exact List.mem_append_left _ (h.logMem x h1)
      · simp only [List.mem_singleton] at h1
        subst h1
        apply List.mem_append_right
        simp
    · -- uidIds
      intro u i hi
      by_cases hu : t1.uid = u
      · subst hu
        have heq : emittedWithUid (s.log ++
            [⟨⟨tripSigOf tm t1, sid⟩, t1.uid, t1.date_start, t1.stp_ind, true,
              newTripId s t1, t1.stops⟩]) t1.uid =
            emittedWithUid s.log t1.uid ++
            [⟨⟨tripSigOf tm t1, sid⟩, t1.uid, t1.date_start, t1.stp_ind, true,
              newTripId s t1, t1.stops⟩] := by
          rw [emittedWithUid_append,
            emittedWithUid_single_true (show (true : Bool) = true from rfl), if_pos rfl]
        simp only [heq] at hi ⊢
        rcases Nat.lt_or_ge i (emittedWithUid s.log t1.uid).length with hlt | hge
        · rw [List.getElem_append_left hlt]
          exact h.uidIds t1.uid i hlt
        · have hil : i = (emittedWithUid s.log t1.uid).length := by
            simp only [List.length_append, List.length_singleton] at hi
            omega
          subst hil
          rw [List.getElem_concat_length _ _ _ rfl hi]
          unfold newTripId
          rw [h.uidCounts t1.uid]
      · have heq : emittedWithUid (s.log ++
            [⟨⟨tripSigOf tm t1, sid⟩, t1.uid, t1.date_start, t1.stp_ind, true,
              newTripId s t1, t1.stops⟩]) u = emittedWithUid s.log u := by
          rw [emittedWithUid_append,
            emittedWithUid_single_true (show (true : Bool) = true from rfl),
            if_neg (fun hh : t1.uid = u => hu hh), List.append_nil]
        simp only [heq] at hi ⊢
        exact h.uidIds u i hi

/-- The full finalization preserves the invariant. -/
theorem inv_finalize (tm : List (Str × ParsedStation)) (toc : List (Str × Str))
    {s : MCAState} (t1 : TripState) (h : MCAInv s) :
    MCAInv (finalizeTrip tm toc s t1) := by
  have hpre : MCAInv (finalizePre tm toc s t1) := by
    unfold MCAInv at h ⊢
    rw [finalizePre_tsmap, finalizePre_uid, finalizePre_cal, finalizePre_counter,
      finalizePre_trips, finalizePre_st, finalizePre_calout, finalizePre_log]
    exact h
  rw [finalizeTrip_eq]
  cases hc : alFind (finalizePre tm toc s t1).calendar_signature_to_id (calSigOf t1) with
  | some cid =>
    rw [calStep_found hc]
    refine inv_emit tm t1 cid hpre ?_
    have hv := alFind_mem_snd hc
    rw [hpre.calVals] at hv
    exact hv
  | none =>
    rw [calStep_new hc]
    have hnotin : calSigOf t1 ∉
        (finalizePre tm toc s t1).calendar_signature_to_id.map Prod.fst :=
      alFind_eq_none_iff.mp hc
    have h1 : MCAInv
        { finalizePre tm toc s t1 with
          calendar_signature_to_id :=
            (finalizePre tm toc s t1).calendar_signature_to_id ++
              [(calSigOf t1, svcId (finalizePre tm toc s t1).service_counter)],
          service_counter := (finalizePre tm toc s t1).service_counter + 1,
          calendar_out := (finalizePre tm toc s t1).calendar_out ++
            [calRow (calSigOf t1) (svcId (finalizePre tm toc s t1).service_counter)] } := by
      refine ⟨?_, ?_, ?_, hpre.tripKeys, ?_, hpre.logKeys, hpre.tripsLink, hpre.stLink,
        hpre.uidCounts, hpre.temporal, hpre.logMem, hpre.uidIds⟩
      · rw [List.map_append, hpre.calVals, List.range_succ, List.map_append]
        rfl
      · rw [List.map_append]
        refine List.Nodup.append hpre.calKeys (List.nodup_singleton _) ?_
        intro a ha hb
        simp only [List.map_cons, List.map_nil, List.mem_singleton] at hb
        subst hb
        exact hnotin ha
      · rw [List.map_append, hpre.calRows, List.range_succ, List.map_append]
        rfl
      · intro p hp
        have := hpre.tripSvc p hp
        rw [List.range_succ, List.map_append]
        exact List.mem_append_left _ this
    refine inv_emit tm t1 (svcId (finalizePre tm toc s t1).service_counter) h1 ?_
    rw [List.range_succ, List.map_append]
    exact List.mem_append_right _ (by simp)

/-- One step of `parse_mca` preserves the invariant. -/
theorem inv_step (tm : List (Str × ParsedStation)) (toc : List (Str × Str))
    (s : MCAState) (l : Str) (h : MCAInv s) : MCAInv (mcaStep tm toc s l) := by
  cases hlt : ltTrip tm s l with
  | none => exact inv_copy (mcaStep_nonfinal tm toc s l hlt) h
  | some t1 =>
    rw [mcaStep_final tm toc s l t1 hlt]
    exact inv_finalize tm toc t1 h

theorem inv_fold (tm : List (Str × ParsedStation)) (toc : List (Str × Str)) :
    ∀ (lines : List Str) (s : MCAState), MCAInv s →
      MCAInv (lines.foldl (mcaStep tm toc) s)
  | [], _, h => h
  | l :: ls, s, h => inv_fold tm toc ls (mcaStep tm toc s l) (inv_step tm toc s l h)

/-- Every state reached by `parse_mca` satisfies the invariant. -/
theorem inv_parse (tm : List (Str × ParsedStation)) (toc : List (Str × Str))
    (lines : List Str) : MCAInv (parse_mca tm toc lines) :=
  inv_fold tm toc lines mcaInit inv_init

/-! ## Helper lemmas for the claims -/

/-- `emitStep` never touches the calendar state. -/
theorem emitStep_calfields (tm : List (Str × ParsedStation)) (s : MCAState)
    (t1 : TripState) (sid : Str) :
    (emitStep tm s t1 sid).calendar_signature_to_id = s.calendar_signature_to_id ∧
    (emitStep tm s t1 sid).service_counter = s.service_counter ∧
    (emitStep tm s t1 sid).calendar_out = s.calendar_out := by
  unfold emitStep
  dsimp only
  split <;> exact ⟨rfl, rfl, rfl⟩

/-- A cancellation schedule-basic record only clears the accumulator. -/
theorem mcaStep_cancel (tm : List (Str × ParsedStation)) (toc : List (Str × Str))
    (s : MCAState) (bs : Str) (hbs : isCancelBS bs = true) :
    mcaStep tm toc s bs = { s with current_trip := none } := by
  unfold isCancelBS at hbs
  simp only [Bool.and_eq_true, decide_eq_true_eq, beq_iff_eq] at hbs
  obtain ⟨⟨hlen, htake⟩, hstp⟩ := hbs
  unfold mcaStep
  rw [if_neg (by omega), if_pos htake]
  unfold stepBS
  dsimp only
  rw [if_pos hstp]

theorem isLT_not_bs {lt : Str} (h : isLT lt = true) : isNonCancelBS lt = false := by
  unfold isLT at h
  simp only [Bool.and_eq_true, decide_eq_true_eq, beq_iff_eq] at h
  unfold isNonCancelBS
  rw [h.2]
  simp [show ((str "LT" == str "BS") : Bool) = false from by decide]

/-- A date/revision-suffixed trip identifier is never the bare UID. -/
theorem suffix_ne_bare (u ds stp : Str) :
    u ++ str "_" ++ ds ++ str "_" ++ stp ≠ u := by
  intro hEq
  have hl := congrArg List.length hEq
  simp only [List.length_append] at hl
  have h1 : (str "_").length = 1 := rfl
  omega

/-- Within the emitted trips of one UID, the bare UID is assigned exactly
to the first one. -/
theorem bare_uid_iff {s : MCAState} (h : MCAInv s) (u : Str) (i : Nat)
    (hi : i < (emittedWithUid s.log u).length) :
    (emittedWithUid s.log u)[i].trip_id = u ↔ i = 0 := by
  have hid := h.uidIds u i hi
  by_cases hz : i = 0
  · subst hz
    rw [hid, if_pos rfl]
    simp
  · rw [hid, if_neg hz]
    constructor
    · intro hEq
      exact absurd hEq (suffix_ne_bare u _ _)
    · intro hzz
      exact absurd hzz hz

/-! ## Claim theorems -/

/-- C1: for every pair of finalized trips whose composite signature
(route identifier, ordered stop tuple sequence, headsign, short train
identifier, plus resolved service identifier) is identical, exactly one
trips row and one set of stop_times rows is emitted: a finalization event
is emitted exactly when its signature has not occurred in any earlier
finalization (so the second and later occurrences are suppressed
entirely), the signatures of emitted events are pairwise distinct, the
trips rows are exactly the rows of the emitted events, and the stop_times
rows are exactly the stop rows of the emitted events (none for a
suppressed duplicate). -/
theorem c1_duplicate_trip_suppression (tm : List (Str × ParsedStation))
    (toc : List (Str × Str)) (lines : List Str) :
    ((((parse_mca tm toc lines).log.filter (fun e => e.emitted)).map FinalEvent.sig).Nodup) ∧
    (∀ i (hi : i < (parse_mca tm toc lines).log.length),
      ((parse_mca tm toc lines).log[i].emitted = true ↔
        (parse_mca tm toc lines).log[i].sig ∉
          ((parse_mca tm toc lines).log.take i).map FinalEvent.sig)) ∧
    (parse_mca tm toc lines).trips_out =
      (((parse_mca tm toc lines).log.filter (fun e => e.emitted)).map eventTripRow) ∧
    (parse_mca tm toc lines).stop_times_out =
      (((parse_mca tm toc lines).log.filter (fun e => e.emitted)).flatMap eventStopRows) := by
  have h := inv_parse tm toc lines
  refine ⟨?_, h.temporal, h.tripsLink, h.stLink⟩
  rw [h.logKeys]
  exact h.tripKeys

/-- Witness for C1 at a concrete run: the fifth record of `mcaLines2`
finalizes a trip whose signature equals the first one's, and the theorem
forces its suppression. -/
theorem c1_duplicate_trip_suppression_witness :
    ¬ ((parse_mca mcaTM [] mcaLines2).log.get ⟨1, by decide⟩).emitted = true := by
  intro hb
  have h := (c1_duplicate_trip_suppression mcaTM [] mcaLines2).2.1 1 (by decide)
  rw [List.get_eq_getElem] at hb
  exact (h.mp hb) (by decide)

/-- C2 counterexample: in the run over `mcaLines2` the first finalized
trip with UID `BBBBBB` (the second finalization) is suppressed and is not
an emitted trip at all, while a later emitted trip with that UID (the
third finalization) keeps the bare UID `BBBBBB` unsuffixed — so it is not
the first finalized trip with that UID that keeps the bare UID, and an
emitted trip other than the first finalized one carries no suffix,
contradicting the claim as stated. -/
theorem c2_trip_id_counterexample :
    (parse_mca mcaTM [] mcaLines2).log.map (fun e => (e.uid, e.emitted, e.trip_id)) =
      [(str "AAAAAA", true, str "AAAAAA"),
       (str "BBBBBB", false, []),
       (str "BBBBBB", true, str "BBBBBB")] ∧
    (str "BBBBBB" : Str) ≠ str "BBBBBB" ++ str "_" ++ str "240101" ++ str "_" ++ str "P" :=
  ⟨by decide, by decide⟩

/-- C2 (amended): for every business UID, among the **emitted** trips
carrying that UID, exactly the first keeps the bare UID as its output
trip identifier, and every later emitted trip with the same UID receives
the identifier suffixed with its validity start date and revision
indicator.  (A suppressed duplicate consumes no UID usage, so the bare
UID goes to the first emitted — not necessarily the first finalized —
trip of the UID.) -/
theorem c2_bare_uid_first_emitted (tm : List (Str × ParsedStation))
    (toc : List (Str × Str)) (lines : List Str) (u : Str) :
    ∀ i (hi : i < (emittedWithUid (parse_mca tm toc lines).log u).length),
      ((emittedWithUid (parse_mca tm toc lines).log u)[i].trip_id = u ↔ i = 0) ∧
      (i ≠ 0 → (emittedWithUid (parse_mca tm toc lines).log u)[i].trip_id =
        u ++ str "_" ++ (emittedWithUid (parse_mca tm toc lines).log u)[i].date_start ++
          str "_" ++ (emittedWithUid (parse_mca tm toc lines).log u)[i].stp_ind) := by
  intro i hi
  have h := inv_parse tm toc lines
  refine ⟨bare_uid_iff h u i hi, fun hz => ?_⟩
  rw [h.uidIds u i hi, if_neg hz]

/-- Witness for the amended C2: in the concrete run, the unique emitted
trip with UID `BBBBBB` keeps the bare UID. -/
theorem c2_bare_uid_first_emitted_witness :
    ((emittedWithUid (parse_mca mcaTM [] mcaLines2).log (str "BBBBBB")).get
      ⟨0, by decide⟩).trip_id = str "BBBBBB" := by
  have h := (c2_bare_uid_first_emitted mcaTM [] mcaLines2 (str "BBBBBB") 0 (by decide)).1
  rw [List.get_eq_getElem]
  exact h.mpr rfl

/-- C4 is a code bug: the source never resets `current_trip` after a
terminal-location finalization (the spec's transition to *idle*), and
does not advance the sequence counter there; on the input
`BS;LO;LT;LT` (a second terminal record with no intervening
schedule-basic record) the second finalized — and emitted — trip has
stop sequence numbers `[1, 2, 2]`, not a strictly increasing run, and
the written stop_times rows repeat sequence number 2. -/
theorem c4_terminal_reset_code_bug :
    (parse_mca mcaTM [] [bsA, loA, ltC, ltC]).log.map
      (fun e => (e.emitted, e.stops.map (fun st => st.stop_sequence))) =
      [(true, [1, 2]), (true, [1, 2, 2])] ∧
    (parse_mca mcaTM [] [bsA, loA, ltC, ltC]).stop_times_out.map
      (fun st => st.stop_sequence) = [1, 2, 1, 2, 2] :=
  ⟨by decide, by decide⟩

/-- C9: `format_time` maps a raw field whose numeric characters start
with `0930` to `09:30:00`, maps any raw field with fewer than 4 numeric
characters to `00:00:00`, and on every input returns a full 8-character
`HH:MM:SS` string (it never fails). -/
theorem c9_format_time_spec (raw : Str) :
    ((raw.filter (fun c => c.isDigit)).take 4 = str "0930" →
      format_time raw = str "09:30:00") ∧
    ((raw.filter (fun c => c.isDigit)).length < 4 →
      format_time raw = str "00:00:00") ∧
    (format_time raw).length = 8 := by
  refine ⟨?_, ?_, ?_⟩
  · intro h
    have hlen : 4 ≤ (raw.filter (fun c => c.isDigit)).length := by
      have h4 := congrArg List.length h
      rw [List.length_take] at h4
      have h5 : (str "0930").length = 4 := rfl
      omega
    unfold format_time
    dsimp only
    rw [if_pos hlen]
    have h2 : (raw.filter (fun c => c.isDigit)).take 2 = str "09" := by
      have h6 := congrArg (List.take 2) h
      rw [List.take_take] at h6
      norm_num at h6
      exact h6
    have h3 : ((raw.filter (fun c => c.isDigit)).drop 2).take 2 = str "30" := by
      have h7 := congrArg (List.drop 2) h
      rw [List.drop_take] at h7
      exact h7
    rw [h2, h3]
    decide
  · intro h
    unfold format_time
    dsimp only
    rw [if_neg (by omega)]
  · unfold format_time
    dsimp only
    by_cases h : 4 ≤ (raw.filter (fun c => c.isDigit)).length
    · rw [if_pos h]
      have e1 : (str ":").length = 1 := rfl
      have e2 : (str ":00").length = 3 := rfl
      simp only [List.length_append, List.length_take, List.length_drop, e1, e2]
      omega
    · rw [if_neg h]
      rfl

/-- Witness for C9 on the concrete fields `0930H` and `09`. -/
theorem c9_format_time_spec_witness :
    format_time (str "0930H") = str "09:30:00" ∧
    format_time (str "09") = str "00:00:00" :=
  ⟨(c9_format_time_spec (str "0930H")).1 (by decide),
   (c9_format_time_spec (str "09")).2.1 (by decide)⟩

/-- C3: calendar deduplication.  In every run state the calendar-map
values are the sequential synthetic identifiers `SVC0, SVC1, ...` in
allocation (finalization) order, its keys are pairwise distinct, and the
calendar rows written are exactly one per allocated identifier, in order.
Moreover a finalizing terminal-location record whose calendar signature
was seen before reuses the mapped service identifier and allocates
nothing and writes no calendar row, while a new signature allocates the
next sequential identifier, appends the mapping and writes exactly one
calendar row. -/
theorem c3_calendar_dedup (tm : List (Str × ParsedStation)) (toc : List (Str × Str))
    (lines : List Str) :
    let s := parse_mca tm toc lines
    (s.calendar_signature_to_id.map Prod.snd = (List.range s.service_counter).map svcId) ∧
    ((s.calendar_signature_to_id.map Prod.fst).Nodup) ∧
    (s.calendar_out.map Calendar.service_id = (List.range s.service_counter).map svcId) ∧
    (∀ line t1, ltTrip tm s line = some t1 →
      (calSigOf t1 ∈ s.calendar_signature_to_id.map Prod.fst →
        alFind s.calendar_signature_to_id (calSigOf t1) = some (serviceIdOf s t1) ∧
        (mcaStep tm toc s line).calendar_signature_to_id = s.calendar_signature_to_id ∧
        (mcaStep tm toc s line).service_counter = s.service_counter ∧
        (mcaStep tm toc s line).calendar_out = s.calendar_out) ∧
      (calSigOf t1 ∉ s.calendar_signature_to_id.map Prod.fst →
        serviceIdOf s t1 = svcId s.service_counter ∧
        (mcaStep tm toc s line).calendar_signature_to_id =
          s.calendar_signature_to_id ++ [(calSigOf t1, svcId s.service_counter)] ∧
        (mcaStep tm toc s line).service_counter = s.service_counter + 1 ∧
        (mcaStep tm toc s line).calendar_out =
          s.calendar_out ++ [calRow (calSigOf t1) (svcId s.service_counter)])) := by
  intro s
  have h := inv_parse tm toc lines
  refine ⟨h.calVals, h.calKeys, h.calRows, ?_⟩
  intro line t1 hlt
  constructor
  · intro hmem
    obtain ⟨cid, hc⟩ := alFind_isSome_of_mem hmem
    have hc2 : alFind (finalizePre tm toc s t1).calendar_signature_to_id (calSigOf t1) =
        some cid := by
      rw [finalizePre_cal]
      exact hc
    have hsid : serviceIdOf s t1 = cid := by
      unfold serviceIdOf
      rw [hc]
    rw [mcaStep_final tm toc s line t1 hlt, finalizeTrip_eq, calStep_found hc2]
    obtain ⟨e1, e2, e3⟩ := emitStep_calfields tm (finalizePre tm toc s t1) t1 cid
    refine ⟨by rw [hc, hsid], ?_, ?_, ?_⟩
    · rw [e1, finalizePre_cal]
    · rw [e2, finalizePre_counter]
    · rw [e3, finalizePre_calout]
  · intro hnot
    have hc : alFind s.calendar_signature_to_id (calSigOf t1) = none :=
      alFind_eq_none_iff.mpr hnot
    have hc2 : alFind (finalizePre tm toc s t1).calendar_signature_to_id (calSigOf t1) =
        none := by
      rw [finalizePre_cal]
      exact hc
    have hsid : serviceIdOf s t1 = svcId s.service_counter := by
      unfold serviceIdOf
      rw [hc]
    rw [mcaStep_final tm toc s line t1 hlt, finalizeTrip_eq, calStep_new hc2]
    obtain ⟨e1, e2, e3⟩ := emitStep_calfields tm _ t1 _
    refine ⟨hsid, ?_, ?_, ?_⟩
    · rw [e1]
      dsimp only
      rw [finalizePre_cal, finalizePre_counter]
    · rw [e2]
      dsimp only
      rw [finalizePre_counter]
    · rw [e3]
      dsimp only
      rw [finalizePre_calout, finalizePre_counter]

/-- Witness for C3: in the concrete run a second trip with an identical
calendar signature reuses the service identifier and allocates nothing. -/
theorem c3_calendar_dedup_witness :
    (mcaStep mcaTM [] c3state ltC).service_counter = c3state.service_counter := by
  have h := ((c3_calendar_dedup mcaTM [] [bsA, loA, liB, ltC, bsB2, loA]).2.2.2
    ltC c3trip rfl).1 (by decide)
  exact h.2.2.1

/-- C5: a schedule-basic record with the cancellation revision indicator
`C` transitions the machine to idle (discarding any open accumulator) and
emits nothing; and after it, through any records none of which is a
non-cancelled schedule-basic record, a terminal-location record emits no
trip, stop_times, route, agency or calendar row. -/
theorem c5_cancellation_discards (tm : List (Str × ParsedStation))
    (toc : List (Str × Str)) (s : MCAState) (bs : Str) (ws : List Str) (lt : Str)
    (hbs : isCancelBS bs = true) (hws : ∀ w ∈ ws, isNonCancelBS w = false)
    (hlt : isLT lt = true) :
    (mcaStep tm toc s bs).current_trip = none ∧
    QuietEq (mcaStep tm toc s bs) s ∧
    (mcaStep tm toc (ws.foldl (mcaStep tm toc) (mcaStep tm toc s bs)) lt).trips_out =
      s.trips_out ∧
    (mcaStep tm toc (ws.foldl (mcaStep tm toc) (mcaStep tm toc s bs)) lt).stop_times_out =
      s.stop_times_out ∧
    (mcaStep tm toc (ws.foldl (mcaStep tm toc) (mcaStep tm toc s bs)) lt).routes =
      s.routes ∧
    (mcaStep tm toc (ws.foldl (mcaStep tm toc) (mcaStep tm toc s bs)) lt).agencies =
      s.agencies ∧
    (mcaStep tm toc (ws.foldl (mcaStep tm toc) (mcaStep tm toc s bs)) lt).calendar_out =
      s.calendar_out := by
  have hb := mcaStep_cancel tm toc s bs hbs
  have hb0 : (mcaStep tm toc s bs).current_trip = none := by
    rw [hb]
  have hbq : QuietEq (mcaStep tm toc s bs) s := by
    rw [hb]
    exact ⟨⟨rfl, rfl, rfl, rfl, rfl, rfl, rfl⟩, rfl, rfl, rfl⟩
  obtain ⟨hfq, hfc⟩ := mcaFold_null tm toc ws (mcaStep tm toc s bs) hb0 hws
  obtain ⟨hlq, _⟩ := mcaStep_null tm toc (ws.foldl (mcaStep tm toc) (mcaStep tm toc s bs))
    lt hfc (isLT_not_bs hlt)
  have hq : QuietEq (mcaStep tm toc (ws.foldl (mcaStep tm toc) (mcaStep tm toc s bs)) lt) s :=
    quietEq_trans hlq (quietEq_trans hfq hbq)
  obtain ⟨⟨_, _, _, _, q5, q6, q7⟩, _, q9, q10⟩ := hq
  exact ⟨hb0, hbq, q5, q6, q10, q9, q7⟩

/-- Witness for C5: concrete cancellation after an open accumulator;
the later terminal record emits nothing. -/
theorem c5_cancellation_discards_witness :
    (mcaStep mcaTM [] (mcaStep mcaTM [] (parse_mca mcaTM [] [bsA, loA]) bsCancel) ltC).trips_out =
      (parse_mca mcaTM [] [bsA, loA]).trips_out ∧
    (mcaStep mcaTM [] (parse_mca mcaTM [] [bsA, loA]) bsCancel).current_trip = none := by
  have h := c5_cancellation_discards mcaTM [] (parse_mca mcaTM [] [bsA, loA]) bsCancel []
    ltC (by decide) (by decide) (by decide)
  exact ⟨h.2.2.1, h.1⟩

/-- C6: while accumulating, an intermediate-location record whose public
arrival and departure fields both equal the zero sentinel `0000` leaves
the state unchanged (the stop is excluded even when its location code
resolves); with at least one non-sentinel public time, the stop is
appended exactly when the location code is present in the station map. -/
theorem c6_intermediate_filter (tm : List (Str × ParsedStation)) (toc : List (Str × Str))
    (s : MCAState) (line : Str) (t : TripState)
    (hcur : s.current_trip = some t) (hlen : 2 ≤ line.length)
    (hrt : line.take 2 = str "LI") :
    (sget line 25 29 (str "0000") = str "0000" ∧ sget line 29 33 (str "0000") = str "0000" →
      mcaStep tm toc s line = s) ∧
    (¬ (sget line 25 29 (str "0000") = str "0000" ∧
        sget line 29 33 (str "0000") = str "0000") →
      ((alFind tm (trim (sget line 2 9 []))).isSome = true →
        mcaStep tm toc s line =
          { s with
            current_trip := some
              { t with stops := t.stops ++
                [⟨str "PLACEHOLDER", format_time (sget line 10 15 (str "00000")),
                  format_time (sget line 15 20 (str "00000")),
                  trim (sget line 2 9 []), s.seq_counter⟩] },
            seq_counter := s.seq_counter + 1 }) ∧
      ((alFind tm (trim (sget line 2 9 []))) = none → mcaStep tm toc s line = s)) := by
  have hstep : mcaStep tm toc s line = stepLI tm s line := by
    unfold mcaStep
    rw [if_neg (by omega), hrt,
      if_neg (by decide : ¬ (str "LI" = str "BS")),
      if_neg (by decide : ¬ (str "LI" = str "BX")),
      if_neg (by decide : ¬ (str "LI" = str "LO")),
      if_pos (rfl : str "LI" = str "LI")]
  rw [hstep]
  unfold stepLI
  rw [hcur]
  dsimp only
  constructor
  · intro hz
    rw [if_pos hz]
  · intro hnz
    rw [if_neg hnz]
    constructor
    · intro hsome
      rw [if_pos hsome]
    · intro hnone
      rw [if_neg (by simp [hnone] : ¬ ((alFind tm (trim (sget line 2 9 []))).isSome = true))]

/-- Witness for C6: a resolving intermediate stop with both public times
zero-filled is excluded (the state is unchanged). -/
theorem c6_intermediate_filter_witness :
    mcaStep mcaTM [] c6state liZero = c6state := by
  have h := (c6_intermediate_filter mcaTM [] c6state liZero c6trip rfl (by decide)
    (by decide)).1
  exact h ⟨by decide, by decide⟩

/-- C7: for a station reference line whose short station code is present
in the external geocode lookup, the stored station's coordinates equal
the lookup pair exactly (regardless of the projected fields and of the
external parse/convert functions); when the code is absent, an
unparseable easting or northing field contributes zero to the projected
input, and a failed conversion stores `(0, 0)` rather than failing. -/
theorem c7_station_resolution (lookup : List (Str × (Rat × Rat)))
    (pn : Str → Option Rat) (cv : Rat → Rat → Option (Rat × Rat))
    (map : List (Str × ParsedStation)) (line : Str)
    (hA : msnStartsA line = true) :
    (∀ c, alFind lookup (msnCrs line) = some c →
      msnCoords lookup pn cv line = c ∧
      (msnTiploc line ≠ [] →
        alFind (msnStep lookup pn cv map line) (msnTiploc line) =
          some ⟨msnTiploc line, msnName line, c.1, c.2⟩)) ∧
    (alFind lookup (msnCrs line) = none →
      (pn (trim (msnEastingStr line)) = none → (msnEN pn line).1 = 0) ∧
      (pn (trim (msnNorthingStr line)) = none → (msnEN pn line).2 = 0) ∧
      (cv (msnEN pn line).1 (msnEN pn line).2 = none →
        msnCoords lookup pn cv line = (0, 0) ∧
        (msnTiploc line ≠ [] →
          alFind (msnStep lookup pn cv map line) (msnTiploc line) =
            some ⟨msnTiploc line, msnName line, 0, 0⟩))) := by
  constructor
  · intro c hc
    have hco : msnCoords lookup pn cv line = c := by
      unfold msnCoords
      rw [hc]
    refine ⟨hco, fun ht => ?_⟩
    unfold msnStep
    rw [if_pos hA]
    dsimp only
    rw [if_pos ht, alFind_alSet_self, hco]
  · intro hn
    refine ⟨fun hp => ?_, fun hp => ?_, fun hcv => ?_⟩
    · unfold msnEN
      rw [hp]
      simp
    · unfold msnEN
      rw [hp]
      simp
    · have hco : msnCoords lookup pn cv line = (0, 0) := by
        unfold msnCoords
        rw [hn, hcv]
      refine ⟨hco, fun ht => ?_⟩
      unfold msnStep
      rw [if_pos hA]
      dsimp only
      rw [if_pos ht, alFind_alSet_self, hco]

/-- Witness for C7 on a concrete reference line whose short code `AAA`
is in the lookup with coordinates `(1, 2)`: the stored station carries
exactly those coordinates even though the parse and conversion functions
always fail. -/
theorem c7_station_resolution_witness :
    alFind (msnStep [(str "AAA", ((1 : Rat), (2 : Rat)))] (fun _ => none)
      (fun _ _ => none) [] msnLine) (str "STNA") =
      some ⟨str "STNA", str "ALPHA", 1, 2⟩ := by
  have h := ((c7_station_resolution [(str "AAA", ((1 : Rat), (2 : Rat)))] (fun _ => none)
    (fun _ _ => none) [] msnLine (by decide)).1 ((1 : Rat), (2 : Rat)) (by decide)).2
    (by decide)
  exact h

/-- C8 counterexample: a finalized trip of the metro operator `LO` whose
resolved distinct station names include one containing `EUSTON` and one
containing `WATFORD JUNCTION` — but also `GOSPEL OAK` and `BARKING` — is
classified as the Suffragette line (the first rule in the priority
order), not the Lioness triple the claim asserts. -/
theorem c8_lioness_counterexample :
    (parse_mca tmLO [] linesLO).trips_out.map (fun t => t.route_id) =
      [str "LO-SUFFRAGETTE"] ∧
    (parse_mca tmLO [] linesLO).log.map (fun e =>
      (loHas (loNames e.stops tmLO) (str "EUSTON"),
       loHas (loNames e.stops tmLO) (str "WATFORD JUNCTION"),
       get_lo_line_details e.stops tmLO)) =
      [(true, true, (str "Suffragette Line", str "LO-SUFFRAGETTE", str "008163"))] ∧
    (parse_mca tmLO [] linesLO).agencies.map (fun a => a.agency_id) = [str "LO"] ∧
    (str "LO-SUFFRAGETTE" : Str) ≠ str "LO-LIONESS" :=
  ⟨by decide, by decide, by decide, by decide⟩

/-- C8 (amended): the classifier returns the Lioness triple for stops
whose resolved names include (case-insensitively) one containing
`EUSTON` and one containing `WATFORD JUNCTION`, **provided no
earlier rule of the priority list matches** (Suffragette, Liberty,
Weaver); with an earlier match that rule's triple is returned instead of
the generic fallback. -/
theorem c8_lioness_amended (stops : List StopTime) (tm : List (Str × ParsedStation))
    (h1 : loHas (loNames stops tm) (str "EUSTON") = true)
    (h2 : loHas (loNames stops tm) (str "WATFORD JUNCTION") = true)
    (h3 : (loHas (loNames stops tm) (str "GOSPEL OAK") &&
      loHas (loNames stops tm) (str "BARKING")) = false)
    (h4 : (loHas (loNames stops tm) (str "ROMFORD") &&
      loHas (loNames stops tm) (str "UPMINSTER")) = false)
    (h5 : (loHas (loNames stops tm) (str "LIVERPOOL STREET") &&
      (loHas (loNames stops tm) (str "CHESHUNT") ||
        loHas (loNames stops tm) (str "ENFIELD TOWN") ||
        loHas (loNames stops tm) (str "CHINGFORD"))) = false) :
    get_lo_line_details stops tm = (str "Lioness Line", str "LO-LIONESS", str "f1b41c") := by
  unfold get_lo_line_details
  simp only [h1, h2, h3, h4, h5, Bool.and_self, if_true, if_false, Bool.false_eq_true,
    Bool.true_and, Bool.and_true]

/-- Witness for the amended C8: stops resolving to exactly
`LONDON EUSTON` and `WATFORD JUNCTION` classify as the Lioness line. -/
theorem c8_lioness_amended_witness :
    get_lo_line_details stopsLW tmLW =
      (str "Lioness Line", str "LO-LIONESS", str "f1b41c") :=
  c8_lioness_amended stopsLW tmLW (by decide) (by decide) (by decide) (by decide)
    (by decide)

/-- C10: a terminal-location record that finalizes into an already-seen
composite trip+service signature is suppressed without touching any
consolidation state: the trip-service map, the per-UID usage counters,
the calendar map, the service counter, and also the trips, stop_times
and calendar outputs are exactly as before the record.  In particular
the usage counters keep counting only emitted trips, so the bare UID
belongs to the first emitted (non-suppressed) trip of each UID. -/
theorem c10_suppressed_duplicate_state (tm : List (Str × ParsedStation))
    (toc : List (Str × Str)) (lines : List Str) (line : Str)
    (sig : TripServiceSignature)
    (hsig : ltSig tm (parse_mca tm toc lines) line = some sig)
    (hseen : sig ∈ (parse_mca tm toc lines).trip_service_to_id.map Prod.fst) :
    (mcaStep tm toc (parse_mca tm toc lines) line).trip_service_to_id =
      (parse_mca tm toc lines).trip_service_to_id ∧
    (mcaStep tm toc (parse_mca tm toc lines) line).uid_usage_count =
      (parse_mca tm toc lines).uid_usage_count ∧
    (mcaStep tm toc (parse_mca tm toc lines) line).calendar_signature_to_id =
      (parse_mca tm toc lines).calendar_signature_to_id ∧
    (mcaStep tm toc (parse_mca tm toc lines) line).service_counter =
      (parse_mca tm toc lines).service_counter ∧
    (mcaStep tm toc (parse_mca tm toc lines) line).trips_out =
      (parse_mca tm toc lines).trips_out ∧
    (mcaStep tm toc (parse_mca tm toc lines) line).stop_times_out =
      (parse_mca tm toc lines).stop_times_out ∧
    (mcaStep tm toc (parse_mca tm toc lines) line).calendar_out =
      (parse_mca tm toc lines).calendar_out ∧
    (∀ u, (alFind (mcaStep tm toc (parse_mca tm toc lines) line).uid_usage_count u).getD 0 =
      (emittedWithUid (mcaStep tm toc (parse_mca tm toc lines) line).log u).length) ∧
    (∀ u i (hi : i < (emittedWithUid (mcaStep tm toc (parse_mca tm toc lines) line).log
        u).length),
      ((emittedWithUid (mcaStep tm toc (parse_mca tm toc lines) line).log u)[i].trip_id = u ↔
        i = 0)) := by
  have hInv := inv_parse tm toc lines
  have hInv2 : MCAInv (mcaStep tm toc (parse_mca tm toc lines) line) :=
    inv_step tm toc (parse_mca tm toc lines) line hInv
  cases hlt : ltTrip tm (parse_mca tm toc lines) line with
  | none =>
    unfold ltSig at hsig
    rw [hlt] at hsig
    cases hsig
  | some t1 =>
    unfold ltSig at hsig
    rw [hlt] at hsig
    have hsig2 : (⟨tripSigOf tm t1, serviceIdOf (parse_mca tm toc lines) t1⟩ :
        TripServiceSignature) = sig := by
      simpa using hsig
    subst hsig2
    cases hc : alFind (parse_mca tm toc lines).calendar_signature_to_id (calSigOf t1) with
    | none =>
      exfalso
      have hss : serviceIdOf (parse_mca tm toc lines) t1 =
          svcId (parse_mca tm toc lines).service_counter := by
        unfold serviceIdOf
        rw [hc]
      rcases List.mem_map.mp hseen with ⟨p, hp, hps⟩
      have hmem := hInv.tripSvc p hp
      rw [hps] at hmem
      have hmem2 : serviceIdOf (parse_mca tm toc lines) t1 ∈
          (List.range (parse_mca tm toc lines).service_counter).map svcId := by
        simpa using hmem
      rw [hss] at hmem2
      exact svcId_fresh (parse_mca tm toc lines).service_counter hmem2
    | some cid =>
      have hsid : serviceIdOf (parse_mca tm toc lines) t1 = cid := by
        unfold serviceIdOf
        rw [hc]
      have hc2 : alFind (finalizePre tm toc (parse_mca tm toc lines) t1
          ).calendar_signature_to_id (calSigOf t1) = some cid := by
        rw [finalizePre_cal]
        exact hc
      obtain ⟨v, hv⟩ := alFind_isSome_of_mem hseen
      rw [hsid] at hv
      have hv2 : alFind (finalizePre tm toc (parse_mca tm toc lines) t1).trip_service_to_id
          ⟨tripSigOf tm t1, cid⟩ = some v := by
        rw [finalizePre_tsmap]
        exact hv
      have hstep : mcaStep tm toc (parse_mca tm toc lines) line =
          { finalizePre tm toc (parse_mca tm toc lines) t1 with
            log := (finalizePre tm toc (parse_mca tm toc lines) t1).log ++
              [⟨⟨tripSigOf tm t1, cid⟩, t1.uid, t1.date_start, t1.stp_ind, false, [],
                t1.stops⟩] } := by
        rw [mcaStep_final tm toc (parse_mca tm toc lines) line t1 hlt, finalizeTrip_eq,
          calStep_found hc2, emitStep_dup hv2]
      refine ⟨?_, ?_, ?_, ?_, ?_, ?_, ?_, hInv2.uidCounts, fun u i hi => bare_uid_iff hInv2 u i hi⟩
      · rw [hstep]
        exact finalizePre_tsmap tm toc (parse_mca tm toc lines) t1
      · rw [hstep]
        exact finalizePre_uid tm toc (parse_mca tm toc lines) t1
      · rw [hstep]
        exact finalizePre_cal tm toc (parse_mca tm toc lines) t1
      · rw [hstep]
        exact finalizePre_counter tm toc (parse_mca tm toc lines) t1
      · rw [hstep]
        exact finalizePre_trips tm toc (parse_mca tm toc lines) t1
      · rw [hstep]
        exact finalizePre_st tm toc (parse_mca tm toc lines) t1
      · rw [hstep]
        exact finalizePre_calout tm toc (parse_mca tm toc lines) t1

/-- Witness for C10: the suppressed duplicate terminal record of the
concrete run leaves the trips output unchanged. -/
theorem c10_suppressed_duplicate_state_witness :
    (mcaStep mcaTM [] c10state ltC).trips_out = c10state.trips_out := by
  have h := c10_suppressed_duplicate_state mcaTM [] [bsA, loA, liB, ltC, bsB, loA, liB]
    ltC c10sig rfl (by decide)
  exact h.2.2.2.2.1
